import Mathlib

/-!
Verification of the Loki per-guild workflow engine (meme-voting contest,
nickname lottery, guild workflow supervisor) against its specification.
The definitions below are a shallow embedding of the Rust sources
(src/subsystems/memes.rs, src/subsystems/nickname_lottery.rs,
src/serenity_handler.rs, src/config.rs): machine integers become Nat/Int,
timestamps become seconds since the Unix epoch, the random generator and
the network become explicit parameters, and fallible operations return
Option.
-/

namespace Loki

/-! ## Data model: messages and the per-guild meme record (memes.rs) -/

/-- A fetched channel message: its id, author id, whether the bot itself
authored it (message.is_own), and the per-emote reaction counts. -/
structure Msg where
  id : Nat
  author : Nat
  is_own : Bool
  reactions : List Nat
deriving DecidableEq, Repr

/-- Summed reaction total of a message:
reactions.iter().map(|m| m.count).sum::<u64>(). -/
def Msg.total (m : Msg) : Nat := m.reactions.sum

/-- The times_won map of the Memes record (HashMap from stringified user id
to win count), embedded as an association list keyed by user id. -/
abbrev VictoryMap := List (Nat × Nat)

/-- times_won.entry(uid).or_insert(0) += 1. -/
def bump_victory : VictoryMap → Nat → VictoryMap
  | [], u => [(u, 1)]
  | (k, n) :: rest, u =>
    if k = u then (k, n + 1) :: rest else (k, n) :: bump_victory rest u

/-- The victory count recorded for a user (0 when absent). -/
def victory_count (m : VictoryMap) (u : Nat) : Nat := (m.lookup u).getD 0

/-- The Memes record of memes.rs (per-guild meme contest state). -/
structure Memes where
  channel : Nat
  last_reset : Int
  initial_message : Nat
  times_won : VictoryMap
  reacted : Bool
deriving DecidableEq, Repr

/-- Memes::new(channel, initial_message): fresh record, last_reset = now,
empty times_won, reacted = false. -/
def Memes.new (channel : Nat) (initial_message : Nat) (now : Int) : Memes :=
  { channel := channel
    last_reset := now
    initial_message := initial_message
    times_won := []
    reacted := false }

/-- Memes::next_reset: last_reset + 7 days. -/
def Memes.next_reset (m : Memes) : Int := m.last_reset + 7 * 86400

/-- Memes::reset(time, initial_message). -/
def Memes.reset (m : Memes) (time : Int) (initial_message : Nat) : Memes :=
  { m with last_reset := time, reacted := false, initial_message := initial_message }

/-- Memes::reacted(): set the self-reaction flag. -/
def Memes.mark_reacted (m : Memes) : Memes := { m with reacted := true }

/-- Memes::add_victory(uid). -/
def Memes.add_victory (m : Memes) (uid : Nat) : Memes :=
  { m with times_won := bump_victory m.times_won uid }

/-! ## Guild record (config.rs) and the memes channel setter -/

/-- The per-guild configuration record of config.rs. threads_started is
marked serde(skip) in the source, so it never round-trips persistence. -/
structure Guild where
  threads_started : Bool
  memes : Option Memes
deriving DecidableEq, Repr

/-- Guild::default(). -/
def Guild.init : Guild := { threads_started := false, memes := none }

/-- Guild::set_memes_channel: Some replaces the record wholesale with
Memes::new (as invoked from the memes set_channel command, which supplies
the channel id and the freshly posted initial message id); None clears it. -/
def Guild.set_memes_channel (g : Guild) (channel : Option (Nat × Nat)) (now : Int) : Guild :=
  match channel with
  | some (c, im) => { g with memes := some (Memes.new c im now) }
  | none => { g with memes := none }

/-! ## Victor selection at Reset (process_memes, memes.rs lines 301-360)

The code reverse-sorts meme_list with slice::sort_unstable_by on the
comparator comparing summed reaction totals descending, then takes the
first element. sort_unstable_by guarantees only that the result is a
permutation of the input ordered by the comparator; the source comment
states explicitly that equal totals make the winner unpredictable. We
therefore embed the sort by its contract: any permutation that is
non-increasing in total. -/

/-- The contract of meme_list.sort_unstable_by(|a, b| total b cmp total a):
the output is a permutation of the input whose totals are non-increasing. -/
def SortedByVotesDesc (l l2 : List Msg) : Prop :=
  l2.Perm l ∧ l2.Sorted (fun a b => b.total ≤ a.total)

instance (l l2 : List Msg) : Decidable (SortedByVotesDesc l l2) := by
  unfold SortedByVotesDesc List.Sorted
  infer_instance

/-- The first message in fetch order attaining the maximum total (what the
specification claims the tie-break selects). -/
def first_max : List Msg → Option Msg
  | [] => none
  | m :: rest =>
    match first_max rest with
    | none => some m
    | some m2 => if m.total < m2.total then some m2 else some m

/-- Maximum summed reaction total over a candidate list. -/
def max_total (l : List Msg) : Nat := (l.map Msg.total).foldr max 0

/-- Outcome posted at Reset. -/
inductive Outcome where
  | victory (author : Nat) (msgId : Nat)
  | no_votes
  | no_entries
deriving DecidableEq, Repr

/-- The Resetting branch of process_memes, given the already-sorted meme
list: the record is reset first (memes.reset(time, initial_message)), then
the outcome is chosen: empty list gives the no-entries text; a victor with
zero total gives the no-votes text; otherwise the victory text and
add_victory for the author of the first (sorted) message. -/
def process_outcome (sorted : List Msg) (memes : Memes) (time : Int)
    (new_initial : Nat) : Outcome × Memes :=
  let m := memes.reset time new_initial
  match sorted with
  | [] => (Outcome.no_entries, m)
  | victor :: _ =>
    if 0 < victor.total then
      (Outcome.victory victor.author victor.id, m.add_victory victor.author)
    else
      (Outcome.no_votes, m)

/-! ## Catch-up pagination (get_messages, memes.rs lines 203-237)

The channel is a list of messages in channel (chronological, ascending id)
order. The platform call channel.messages(after(last).limit(100)) returns
the oldest up-to-100 messages with id greater than the given one, newest
first; the code reverses each page before appending. The loop starts from
the stored initial_message and stops when a page comes back empty. The
loop is embedded with explicit fuel; channel length + 1 rounds is always
enough (lemma fetch_loop_last below). -/

/-- One reversed page: the oldest up-to-100 channel messages with id
greater than last_id, in chronological order (the API page after code-side
reverse). -/
def page_after (c : List Msg) (last_id : Nat) : List Msg :=
  (c.filter (fun m => last_id < m.id)).take 100

/-- The pagination loop of get_messages: repeatedly fetch the page after
the last accumulated message and append it, until a page is empty. -/
def fetch_loop : Nat → List Msg → List Msg → List Msg
  | 0, _, acc => acc
  | fuel + 1, c, acc =>
    match acc.getLast? with
    | none => acc
    | some last =>
      let batch := page_after c last.id
      if batch.isEmpty then acc else fetch_loop fuel c (acc ++ batch)

/-- get_messages: fetch the initial message, page forward until an empty
page, then retain only messages not authored by the bot. -/
def get_messages (c : List Msg) (anchor : Msg) : List Msg :=
  (fetch_loop (c.length + 1) c [anchor]).filter (fun m => !m.is_own)

/-! ## One iteration of the memes workflow loop
(memes_process_iter, memes.rs lines 386-455)

The iteration is embedded as the trace of suspension points and platform
effects it performs, as a function of the persisted record at iteration
start (mem0), the record re-read after the ping sleep (mem1, since the
configuration may change during the sleep), the wall-clock readings taken
before each phase (now1, now2), and whether the channel had no entries at
ping time. -/

inductive IterAction where
  | sleep_ping (secs : Int)
  | ping_reminder
  | sleep_reset (secs : Int)
  | run_reset
deriving DecidableEq, Repr

/-- memes_process_iter: when a Memes record exists, read reset_time once;
if more than 2 days remain, sleep until ping time, re-read the record and
(when it still exists and the channel has no entries) post the reminder;
then recompute time_until_reset from a fresh clock reading, sleep it if it
is positive, and invoke process_memes. -/
def memes_process_iter (mem0 mem1 : Option Memes) (now1 now2 : Int)
    (no_messages : Bool) : List IterAction :=
  match mem0 with
  | none => []
  | some memes =>
    let reset_time := memes.next_reset
    let time_until_ping := (reset_time - 2 * 86400) - now1
    let ping_actions :=
      if 0 < time_until_ping then
        IterAction.sleep_ping time_until_ping ::
          (match mem1 with
           | some _ => if no_messages then [IterAction.ping_reminder] else []
           | none => [])
      else []
    let time_until_reset := reset_time - now2
    ping_actions
      ++ (if 0 < time_until_reset then [IterAction.sleep_reset time_until_reset] else [])
      ++ [IterAction.run_reset]

/-! ## Message intake and the self-reaction flag (memes.rs lines 176-199
and 239-298)

Randomness (the 0.1-probability draw) and the network outcome of the react
call are explicit booleans attached to each event. An event yields true
exactly when the bot successfully adds its own reaction. Message intake
runs under the write lock, so intake events are serialised against each
other and test the live flag. process_memes, however, reads the flag once
under the write lock (memes.rs line 248), drops the lock (line 249) while
it talks to the platform, and then guards the forced pick with that stale
snapshot (line 261): intake events arriving in the unlocked window observe
the live flag while the forced pick does not. -/

/-- An incoming message event as seen by MemesVoting::message: its
ephemeral flag, whether the bot authored it, the channel it was posted to,
the outcome of gen_bool(REACTION_CHANCE), and whether the react call would
succeed. -/
structure IntakeEvent where
  ephemeral : Bool
  is_own : Bool
  channel : Nat
  draw : Bool
  react_ok : Bool
deriving DecidableEq, Repr

/-- MemesVoting::message: ephemeral messages are ignored; for a non-own
message in the configured channel, if the live flag is unset and the
probability draw fires and the react call succeeds, the flag is set.
Returns the updated record and whether the bot self-reacted. -/
def message_intake (m : Memes) (e : IntakeEvent) : Memes × Bool :=
  if e.ephemeral then (m, false)
  else if e.channel == m.channel && !e.is_own then
    if !m.reacted && e.draw && e.react_ok then (m.mark_reacted, true) else (m, false)
  else (m, false)

/-- The forced random pick inside process_memes: guarded by the reacted
snapshot taken at memes.rs line 248 before the write lock was dropped (not
by the live flag), and by the fetched list being non-empty; the live flag
is set only when the react call succeeds. -/
def forced_reaction (m : Memes) (reacted0 : Bool) (nonempty : Bool) (react_ok : Bool) :
    Memes × Bool :=
  if !reacted0 && nonempty && react_ok then (m.mark_reacted, true) else (m, false)

/-- Run a list of intake events, counting successful bot self-reactions. -/
def run_intake (m : Memes) : List IntakeEvent → Memes × Nat
  | [] => (m, 0)
  | e :: es =>
    let r := message_intake m e
    let rest := run_intake r.1 es
    (rest.1, (if r.2 then 1 else 0) + rest.2)

/-- One contest cycle, from the previous Reset to the end of this Reset,
scheduled as the code schedules it: intake events arriving before
process_memes reads the flag (pre), the snapshot read of the flag under
the write lock, intake events arriving while the lock is dropped for the
network calls (window), the forced pick guarded by the stale snapshot,
intake events arriving after the forced pick (tail), and finally the
record reset. Returns the reset record and the number of successful bot
self-reactions in the cycle. -/
def process_cycle (m : Memes) (pre window tail : List IntakeEvent)
    (ne ok : Bool) (time : Int) (ni : Nat) : Memes × Nat :=
  let r1 := run_intake m pre
  let reacted0 := r1.1.reacted
  let r2 := run_intake r1.1 window
  let r3 := forced_reaction r2.1 reacted0 ne ok
  let r4 := run_intake r3.1 tail
  (r4.1.reset time ni, r1.2 + r2.2 + (if r3.2 then 1 else 0) + r4.2)

/-! ## Guild workflow supervisor (serenity_handler.rs guild_create,
config.rs threads_started)

The process keeps an in-memory map from guild id to its Guild record;
threads_started is serde(skip), so saving and reloading the configuration
(a process restart) resets it to false for every guild. Spawned tasks are
recorded in a log of (guild, workflow kind) pairs. -/

inductive WorkflowKind where
  | memes
  | thread_reviver
  | nickname_lottery
  | scoreboard
deriving DecidableEq, Repr

/-- Process-wide supervisor state: the in-memory per-guild started flags
and the log of spawned (guild, workflow kind) tasks. -/
structure ProcState where
  guilds : List (Nat × Bool)
  spawns : List (Nat × WorkflowKind)
deriving DecidableEq, Repr

/-- Read the threads_started flag of a guild; guild_mut inserts
Guild::default (flag false) when the guild is absent. -/
def lookup_started (gs : List (Nat × Bool)) (g : Nat) : Bool :=
  (gs.lookup g).getD false

/-- Set the threads_started flag of a guild to true (inserting the guild
record when absent, as guild_mut does). -/
def set_started : List (Nat × Bool) → Nat → List (Nat × Bool)
  | [], g => [(g, true)]
  | (k, b) :: rest, g =>
    if k = g then (k, true) :: rest else (k, b) :: set_started rest g

/-- SerenityHandler::guild_create: read the started flag, set it, and when
it was unset spawn one task per enabled workflow kind for this guild. -/
def guild_create (enabled : List WorkflowKind) (s : ProcState) (g : Nat) : ProcState :=
  let started := lookup_started s.guilds g
  let guilds2 := set_started s.guilds g
  if started then { s with guilds := guilds2 }
  else
    { guilds := guilds2
      spawns := s.spawns ++ enabled.map (fun k => (g, k)) }

/-- A supervisor-visible event: a guild-observed callback, or a process
restart (the configuration is reloaded from disk; threads_started is
serde(skip), so every flag comes back false, while the spawn log of dead
tasks is kept for accounting). -/
inductive SupEvent where
  | observe (g : Nat)
  | restart
deriving DecidableEq, Repr

/-- Apply one supervisor event. -/
def sup_step (enabled : List WorkflowKind) (s : ProcState) : SupEvent → ProcState
  | SupEvent.observe g => guild_create enabled s g
  | SupEvent.restart => { s with guilds := s.guilds.map (fun p => (p.1, false)) }

/-- Run a list of supervisor events from a state. -/
def sup_run (enabled : List WorkflowKind) (s : ProcState) : List SupEvent → ProcState
  | [] => s
  | e :: es => sup_run enabled (sup_step enabled s e) es

/-- The empty process state at process start. -/
def ProcState.init : ProcState := { guilds := [], spawns := [] }

/-- How many tasks have ever been spawned for a (guild, workflow kind)
pair. -/
def spawn_count (s : ProcState) (g : Nat) (k : WorkflowKind) : Nat :=
  s.spawns.count (g, k)

/-! ## Civil calendar (the chrono operations used by nickname_lottery.rs)

Timestamps are seconds since 1970-01-01 UTC (non-negative, as Nat). The
proleptic Gregorian field readers month(), day(), year() and the
construction of April 1 00:00:00 of a given year follow the standard
civil-from-days / days-from-civil algorithms that chrono implements,
working in days shifted to the era base 0000-03-01 (day 0 of that base is
719468 days before the Unix epoch). -/

/-- The 400-year era index of a timestamp (eras count from 0000-03-01). -/
def era_of (t : Nat) : Nat := (t / 86400 + 719468) / 146097

/-- Day-of-era of a timestamp: 0 to 146096. -/
def doe_of (t : Nat) : Nat := (t / 86400 + 719468) % 146097

/-- Year-of-era of a day-of-era: 0 to 399. -/
def yoe_of (doe : Nat) : Nat :=
  (doe - doe / 1460 + doe / 36524 - doe / 146096) / 365

/-- Day-of-year (in the March-based year) of a day-of-era: 0 to 365. -/
def doy_of (doe : Nat) : Nat :=
  doe - (365 * yoe_of doe + yoe_of doe / 4 - yoe_of doe / 100)

/-- March-based month index of a day-of-era: 0 (March) to 11 (February). -/
def mp_of (doe : Nat) : Nat := (5 * doy_of doe + 2) / 153

/-- Gregorian (year, month, day) of a timestamp. -/
def civil_ymd (t : Nat) : Nat × Nat × Nat :=
  let era := era_of t
  let doe := doe_of t
  let yoe := yoe_of doe
  let doy := doy_of doe
  let mp := mp_of doe
  let d := doy - (153 * mp + 2) / 5 + 1
  let m := if mp < 10 then mp + 3 else mp - 9
  let y := if m ≤ 2 then era * 400 + yoe + 1 else era * 400 + yoe
  (y, m, d)

/-- now.year(). -/
def civil_year (t : Nat) : Nat := (civil_ymd t).1

/-- now.month(). -/
def civil_month (t : Nat) : Nat := (civil_ymd t).2.1

/-- now.day(). -/
def civil_day (t : Nat) : Nat := (civil_ymd t).2.2

/-- Utc.with_ymd_and_hms(y, 4, 1, 0, 0, 0).timestamp(): the start of
April 1 of year y, in seconds since the Unix epoch (day-of-year 31 in the
March-based reckoning picks out April 1). -/
def april1_ts (y : Nat) : Nat :=
  (y / 400 * 146097 + (y % 400 * 365 + y % 400 / 4 - y % 400 / 100 + 31) - 719468) * 86400

/-- The override-date test of the lottery loop:
now.month() == 4 && now.day() == 1. -/
def is_april_fools (t : Nat) : Bool :=
  civil_month t == 4 && civil_day t == 1

/-! ## Nickname lottery wait computation
(NicknameLottery::guild_init, nickname_lottery.rs lines 880-965)

The uniform draw from the half-open range min..max is passed in as the
explicit value sample. DEFAULT_REFRESH_INTERVAL is (1800, 432000); on
April 1 the code forces the wait to the literal 1800 seconds. When the
current month precedes April and now + sample lands in month 4 or later,
the wait is clamped to the time remaining until April 1 of the current
year. -/

/-- DEFAULT_REFRESH_INTERVAL. -/
def default_refresh_interval : Nat × Nat := (1800, 432000)

/-- The wait duration (tts) computed by one release-mode iteration of the
lottery loop, given the sampled uniform value and the current clock. -/
def compute_tts (sample : Nat) (now : Nat) : Nat :=
  if civil_month now = 4 ∧ civil_day now = 1 then 1800
  else if civil_month now < 4 ∧ 4 ≤ civil_month (now + sample) then
    april1_ts (civil_year now) - now
  else sample

/-! ## Post-draw announcement routing
(NicknameLottery::guild_init, nickname_lottery.rs lines 1000-1052)

post_name_change starts as is_april_fools and is set by a failing
edit_member call. When it holds, the code looks at the configured
announcement channel: absent means nothing at all happens (the
NicknameLotteryGuildData.channel doc comment promises a silent failure),
present means the channel is resolved, announcing there on success and
escalating to the notification subscribers when resolution fails. -/

inductive AnnounceAction where
  | announce (channel : Nat)
  | escalate
  | silent
deriving DecidableEq, Repr

/-- The announcement decision after a nickname-edit attempt. resolve
models channel_id.to_channel(...).guild(): the guild channel obtained for
an id, when it is valid. -/
def announce_outcome (edit_failed : Bool) (fools : Bool)
    (channel : Option Nat) (resolve : Nat → Option Nat) : AnnounceAction :=
  let post_name_change := fools || edit_failed
  if post_name_change then
    match channel with
    | some cid =>
      match resolve cid with
      | some ch => AnnounceAction.announce ch
      | none => AnnounceAction.escalate
    | none => AnnounceAction.silent
  else AnnounceAction.silent

/-! ## Nickname store (NicknameLotteryGuildData, nickname_lottery.rs
lines 42-154)

user_specific_nicknames maps stringified user ids to lists of nicknames,
embedded as an association list keyed by user id with the nickname payload
reduced to its text. Randomness in get_random_user is an explicit choice
value r. The asserts guarding remove_user_nickname become Option
failures. -/

abbrev NickStore := List (Nat × List String)

/-- add_user_nickname: entry(user).or_default().push(nickname). -/
def add_user_nickname : NickStore → Nat → String → NickStore
  | [], u, n => [(u, [n])]
  | (k, l) :: rest, u, n =>
    if k = u then (k, l ++ [n]) :: rest else (k, l) :: add_user_nickname rest u n

/-- Body of remove_user_nickname once the n > 0 assert passed: and_modify
removes element n - 1 (asserting n is within bounds) on an occupied entry
and is a no-op on a vacant one; an occupied entry left empty is removed
from the map. -/
def remove_nickname_entry : NickStore → Nat → Nat → Option NickStore
  | [], _, _ => some []
  | (k, l) :: rest, u, n =>
    if k = u then
      if n ≤ l.length then
        let l2 := l.eraseIdx (n - 1)
        some (if l2.isEmpty then rest else (k, l2) :: rest)
      else none
    else (remove_nickname_entry rest u n).map (fun s => (k, l) :: s)

/-- remove_user_nickname(user, n): assert n > 0, then remove the nth
nickname (1-based). -/
def remove_user_nickname (s : NickStore) (u : Nat) (n : Nat) : Option NickStore :=
  if n = 0 then none else remove_nickname_entry s u n

/-- get_random_user: choose uniformly among the map keys; None exactly
when the map is empty. r is the random choice. -/
def get_random_user (s : NickStore) (r : Nat) : Option Nat :=
  (s.get? (r % s.length)).map Prod.fst

/-- get_nickname_for_user: choose uniformly from the given user's list, if
any; None for an absent user or an empty list. r is the random choice. -/
def get_nickname_for_user (s : NickStore) (u : Nat) (r : Nat) : Option String :=
  match s.lookup u with
  | none => none
  | some l => l.get? (r % l.length)

/-- A mutation of the nickname store coming from the command interface. -/
inductive NickOp where
  | add (u : Nat) (n : String)
  | remove (u : Nat) (idx : Nat)
deriving DecidableEq, Repr

/-- Apply one store mutation. -/
def apply_nick_op (s : NickStore) : NickOp → Option NickStore
  | NickOp.add u n => some (add_user_nickname s u n)
  | NickOp.remove u i => remove_user_nickname s u i

/-- Apply a list of store mutations from a starting store (failing if any
single mutation trips an assert). -/
def apply_nick_ops (s : NickStore) : List NickOp → Option NickStore
  | [] => some s
  | op :: ops => (apply_nick_op s op).bind (fun s2 => apply_nick_ops s2 ops)

/-- The store invariant claimed of the code: no user is mapped to an empty
nickname list. -/
def no_empty_lists (s : NickStore) : Prop := ∀ p ∈ s, p.2 ≠ []

instance (s : NickStore) : Decidable (no_empty_lists s) := by
  unfold no_empty_lists
  infer_instance

/-! ## Concrete sample data used by witnesses and counterexamples -/

/-- A sample non-bot message with reaction totals summing to 5. -/
def msgA : Msg := { id := 1, author := 10, is_own := false, reactions := [3, 2] }

/-- A second sample non-bot message, also totalling 5. -/
def msgB : Msg := { id := 2, author := 11, is_own := false, reactions := [5] }

/-- A sample meme record: channel 5, initial message 99, cycle started at
the epoch. -/
def demoMemes : Memes := Memes.new 5 99 0

/-- A sample intake event in the configured channel of demoMemes, with the
probability draw firing and the react call succeeding. -/
def demoIntake : IntakeEvent :=
  { ephemeral := false, is_own := false, channel := 5, draw := true, react_ok := true }

/-! # Theorems

General-purpose lemmas first (calendar arithmetic, list bookkeeping), then
one theorem per claim, each with its witness or counterexample. -/

/-! ## Calendar lemmas

The correctness core of the civil-from-days computation: the year-of-era
formula never overshoots by more than one March-based year, so the
day-of-year stays at most 366, and any timestamp whose month precedes
April lies strictly before April 1 of its own year. -/

/-- Elimination core: the day-of-era bound forces the century-correction
quotient below the century count of the day. -/
theorem vcore (doe q1 r1 q2 r2 A V rV : Nat)
    (h1 : 1460 * q1 + r1 = doe) (h1r : r1 < 1460)
    (h2 : 36524 * q2 + r2 = doe) (h2r : r2 < 36524)
    (hA : A ≤ doe + q2 - q1) (hV : 36500 * V + rV = A) (hVr : rV < 36500) :
    V ≤ q2 := by omega

/-- Elimination core: the quadrennium count of the adjusted day undershoots
the quadrennium count of the day by at most one. -/
theorem ucore (q1 r1 q3 doe A U rU : Nat)
    (h1 : 1460 * q1 + r1 = doe) (h1r : r1 < 1460)
    (hq1 : q1 ≤ 100) (hq3 : q3 ≤ 1)
    (hA : doe - q1 - q3 ≤ A)
    (hU : 1460 * U + rU = A) (hUr : rU < 1460) :
    q1 ≤ U + 1 := by omega

/-- Elimination core: combining the two quotient bounds caps the
day-of-year at 366. -/
theorem dcore (doe q1 q2 q3 A Y rY U V : Nat)
    (hq1 : 1460 * q1 ≤ doe) (hq3 : q3 ≤ 1)
    (hA : A = doe - q1 + q2 - q3)
    (hY : 365 * Y + rY = A) (hYr : rY < 365)
    (hU : q1 ≤ U + 1) (hV : V ≤ q2) :
    doe - (365 * Y + U - V) ≤ 366 := by omega

/-- The year-of-era of any day-of-era is at most 399. -/
theorem yoe_le_399 (doe : Nat) (h : doe ≤ 146096) : yoe_of doe ≤ 399 := by
  unfold yoe_of
  omega

/-- The day-of-year of any day-of-era is at most 366. -/
theorem doy_of_le (doe : Nat) (h : doe ≤ 146096) : doy_of doe ≤ 366 := by
  have e1 : yoe_of doe / 4 = (doe - doe / 1460 + doe / 36524 - doe / 146096) / 1460 := by
    unfold yoe_of
    rw [Nat.div_div_eq_div_mul]
  have e2 : yoe_of doe / 100 = (doe - doe / 1460 + doe / 36524 - doe / 146096) / 36500 := by
    unfold yoe_of
    rw [Nat.div_div_eq_div_mul]
  have hq1 : doe / 1460 ≤ 100 := by omega
  have hq3 : doe / 146096 ≤ 1 := by omega
  have hAle : doe - doe / 1460 + doe / 36524 - doe / 146096 ≤ doe + doe / 36524 - doe / 1460 := by
    omega
  have hAge : doe - doe / 1460 - doe / 146096 ≤ doe - doe / 1460 + doe / 36524 - doe / 146096 := by
    omega
  have hV := vcore doe (doe / 1460) (doe % 1460) (doe / 36524) (doe % 36524)
    (doe - doe / 1460 + doe / 36524 - doe / 146096)
    ((doe - doe / 1460 + doe / 36524 - doe / 146096) / 36500)
    ((doe - doe / 1460 + doe / 36524 - doe / 146096) % 36500)
    (Nat.div_add_mod doe 1460) (Nat.mod_lt doe (by norm_num))
    (Nat.div_add_mod doe 36524) (Nat.mod_lt doe (by norm_num))
    hAle (Nat.div_add_mod _ 36500) (Nat.mod_lt _ (by norm_num))
  have hU := ucore (doe / 1460) (doe % 1460) (doe / 146096) doe
    (doe - doe / 1460 + doe / 36524 - doe / 146096)
    ((doe - doe / 1460 + doe / 36524 - doe / 146096) / 1460)
    ((doe - doe / 1460 + doe / 36524 - doe / 146096) % 1460)
    (Nat.div_add_mod doe 1460) (Nat.mod_lt doe (by norm_num)) hq1 hq3 hAge
    (Nat.div_add_mod _ 1460) (Nat.mod_lt _ (by norm_num))
  have hY : 365 * yoe_of doe + (doe - doe / 1460 + doe / 36524 - doe / 146096) % 365
      = doe - doe / 1460 + doe / 36524 - doe / 146096 := by
    unfold yoe_of
    exact Nat.div_add_mod _ 365
  have hq1b : 1460 * (doe / 1460) ≤ doe := by omega
  unfold doy_of
  rw [e1, e2]
  exact dcore doe (doe / 1460) (doe / 36524) (doe / 146096)
    (doe - doe / 1460 + doe / 36524 - doe / 146096)
    (yoe_of doe) ((doe - doe / 1460 + doe / 36524 - doe / 146096) % 365)
    ((doe - doe / 1460 + doe / 36524 - doe / 146096) / 1460)
    ((doe - doe / 1460 + doe / 36524 - doe / 146096) / 36500)
    hq1b hq3 rfl hY (Nat.mod_lt _ (by norm_num)) hU hV

/-- The month field of a timestamp, spelled through the helper pieces. -/
theorem civil_month_eq (t : Nat) :
    civil_month t
      = (if mp_of (doe_of t) < 10 then mp_of (doe_of t) + 3 else mp_of (doe_of t) - 9) := rfl

/-- The year field of a timestamp, spelled through the helper pieces. -/
theorem civil_year_eq (t : Nat) :
    civil_year t
      = (if (if mp_of (doe_of t) < 10 then mp_of (doe_of t) + 3 else mp_of (doe_of t) - 9) ≤ 2
         then era_of t * 400 + yoe_of (doe_of t) + 1
         else era_of t * 400 + yoe_of (doe_of t)) := rfl

/-- A timestamp whose month precedes April lies strictly before the start
of April 1 of its own year. -/
theorem lt_april1_of_month_lt (t : Nat) (h : civil_month t < 4) :
    t < april1_ts (civil_year t) := by
  have hdoe : doe_of t ≤ 146096 := by
    unfold doe_of
    omega
  have hdoy : doy_of (doe_of t) ≤ 366 := doy_of_le _ hdoe
  have hyoe : yoe_of (doe_of t) ≤ 399 := yoe_le_399 _ hdoe
  have hmp : mp_of (doe_of t) = (5 * doy_of (doe_of t) + 2) / 153 := rfl
  have hdoyd : doy_of (doe_of t)
      = doe_of t - (365 * yoe_of (doe_of t)
          + yoe_of (doe_of t) / 4 - yoe_of (doe_of t) / 100) := rfl
  have hg : 146097 * era_of t + doe_of t = t / 86400 + 719468 := by
    unfold era_of doe_of
    exact Nat.div_add_mod _ _
  rw [civil_month_eq] at h
  rw [civil_year_eq]
  split_ifs at h ⊢ with h1 h2 h3
  · omega
  · have hydiv : (era_of t * 400 + yoe_of (doe_of t)) / 400 = era_of t := by omega
    have hymod : (era_of t * 400 + yoe_of (doe_of t)) % 400 = yoe_of (doe_of t) := by omega
    unfold april1_ts
    rw [hydiv, hymod]
    omega
  · by_cases h9 : yoe_of (doe_of t) = 399
    · have hy : era_of t * 400 + yoe_of (doe_of t) + 1 = (era_of t + 1) * 400 := by omega
      rw [hy]
      have hydiv : (era_of t + 1) * 400 / 400 = era_of t + 1 := by omega
      have hymod : (era_of t + 1) * 400 % 400 = 0 := by omega
      unfold april1_ts
      rw [hydiv, hymod]
      omega
    · have hydiv : (era_of t * 400 + yoe_of (doe_of t) + 1) / 400 = era_of t := by omega
      have hymod : (era_of t * 400 + yoe_of (doe_of t) + 1) % 400
          = yoe_of (doe_of t) + 1 := by omega
      unfold april1_ts
      rw [hydiv, hymod]
      omega
  · omega

/-! ## Claim C5: nickname-lottery interval sampling -/

/-- Claim C5, counterexample. The claim states that on the override date
the sampled duration is forced down to the configured minimum. The code
forces the literal 1800 seconds instead: with the configured interval
(3600, 7200) and sample 5000 on 2025-04-01, the computed wait is 1800,
not 3600. -/
theorem C5_counterexample :
    ¬ (∀ (mn mx sample now : Nat), mn ≤ mx → mn ≤ sample → sample < mx →
        is_april_fools now = true → compute_tts sample now = mn) := by
  intro hclaim
  have h := hclaim 3600 7200 5000 1743465600 (by norm_num) (by norm_num) (by norm_num)
    (by decide)
  exact absurd h (by decide)

/-- Claim C5 (amended): for a sample drawn from the configured interval,
the computed wait is 1800 seconds (the default minimum, regardless of the
configured minimum) on the override date; when the current month precedes
April and the unmodified sample would land in April or later, the wait is
clamped to land exactly at the start of April 1 of the current year; and
otherwise the sample is used unchanged, so the wait lies in the configured
interval. -/
theorem C5_wait_computation (mn mx sample now : Nat)
    (hmn : mn ≤ sample) (hmx : sample < mx) :
    (civil_month now = 4 ∧ civil_day now = 1 → compute_tts sample now = 1800)
    ∧ (civil_month now < 4 → 4 ≤ civil_month (now + sample) →
        now + compute_tts sample now = april1_ts (civil_year now))
    ∧ (¬(civil_month now = 4 ∧ civil_day now = 1) →
        ¬(civil_month now < 4 ∧ 4 ≤ civil_month (now + sample)) →
        compute_tts sample now = sample
        ∧ mn ≤ compute_tts sample now ∧ compute_tts sample now ≤ mx) := by
  refine ⟨fun h => ?_, fun h1 h2 => ?_, fun h1 h2 => ?_⟩
  · unfold compute_tts
    rw [if_pos h]
  · have hfools : ¬(civil_month now = 4 ∧ civil_day now = 1) := by
      intro hf
      omega
    have hlt := lt_april1_of_month_lt now h1
    unfold compute_tts
    rw [if_neg hfools, if_pos ⟨h1, h2⟩]
    omega
  · unfold compute_tts
    rw [if_neg h1, if_neg h2]
    omega

/-- Claim C5, witness: the amended statement instantiated at the default
interval, sample 2000 and the epoch timestamp. -/
theorem C5_witness :
    ((civil_month 0 = 4 ∧ civil_day 0 = 1 → compute_tts 2000 0 = 1800)
    ∧ (civil_month 0 < 4 → 4 ≤ civil_month (0 + 2000) →
        0 + compute_tts 2000 0 = april1_ts (civil_year 0))
    ∧ (¬(civil_month 0 = 4 ∧ civil_day 0 = 1) →
        ¬(civil_month 0 < 4 ∧ 4 ≤ civil_month (0 + 2000)) →
        compute_tts 2000 0 = 2000
        ∧ 1800 ≤ compute_tts 2000 0 ∧ compute_tts 2000 0 ≤ 432000)) :=
  C5_wait_computation 1800 432000 2000 0 (by norm_num) (by norm_num)

/-! ## List bookkeeping lemmas shared by the contest claims -/

/-- The head of any sorted permutation of the candidate list is a
candidate whose total dominates every candidate. -/
theorem head_total_max (l l2 : List Msg) (v : Msg)
    (h : SortedByVotesDesc l l2) (hv : l2.head? = some v) :
    v ∈ l ∧ ∀ m ∈ l, m.total ≤ v.total := by
  obtain ⟨hp, hs⟩ := h
  cases l2 with
  | nil => simp at hv
  | cons a tl =>
    simp at hv
    subst hv
    constructor
    · exact hp.mem_iff.mp (List.mem_cons_self a tl)
    · intro m hm
      have hm2 : m ∈ a :: tl := hp.mem_iff.mpr hm
      rcases List.mem_cons.mp hm2 with rfl | hmtl
      · exact le_refl _
      · exact (List.sorted_cons.mp hs).1 m hmtl

/-- Every candidate total is dominated by max_total. -/
theorem le_max_total (l : List Msg) (m : Msg) (hm : m ∈ l) : m.total ≤ max_total l := by
  induction l with
  | nil => simp at hm
  | cons a tl ih =>
    simp only [max_total, List.map_cons, List.foldr_cons] at *
    rcases List.mem_cons.mp hm with rfl | h
    · exact Nat.le_max_left _ _
    · exact le_trans (ih h) (Nat.le_max_right _ _)

/-- max_total is dominated by any bound on the candidate totals. -/
theorem max_total_le (l : List Msg) (b : Nat) (hb : ∀ m ∈ l, m.total ≤ b) :
    max_total l ≤ b := by
  induction l with
  | nil => simp [max_total]
  | cons a tl ih =>
    simp only [max_total, List.map_cons, List.foldr_cons] at *
    exact max_le (hb a (by simp)) (ih fun m hm => hb m (List.mem_cons_of_mem _ hm))

/-- bump_victory raises the bumped user's recorded count by exactly one. -/
theorem victory_count_bump (m : VictoryMap) (u : Nat) :
    victory_count (bump_victory m u) u = victory_count m u + 1 := by
  induction m with
  | nil => simp [bump_victory, victory_count, List.lookup]
  | cons p rest ih =>
    obtain ⟨k, n⟩ := p
    by_cases hk : k = u
    · subst hk
      simp [bump_victory, victory_count, List.lookup]
    · have hbeq : (u == k) = false := by
        simp
        omega
      simp only [bump_victory, if_neg hk]
      simp only [victory_count, List.lookup, hbeq] at ih ⊢
      exact ih

/-! ## Claim C1: victor selection and the tie-break -/

/-- Claim C1, counterexample. The claim states that among candidates tied
for the maximum total the one encountered first in fetch order is
selected. The selection contract of sort_unstable_by permits the reverse
order for two tied messages, in which case the later message is selected:
with msgA and msgB both totalling 5, the sorted permutation putting msgB
first is admissible, yet the first-encountered maximum is msgA. -/
theorem C1_counterexample :
    ¬ (∀ (l l2 : List Msg) (v : Msg), SortedByVotesDesc l l2 → l2.head? = some v →
        first_max l = some v) := by
  intro hclaim
  have h := hclaim [msgA, msgB] [msgB, msgA] msgB (by decide) rfl
  exact absurd h (by decide)

/-- Claim C1 (amended): the selected victor is always a fetched candidate
whose summed reaction total attains the maximum (strictly highest when
unique); when several candidates tie for the maximum, which of them is
selected is not determined by fetch order, since the code uses an unstable
sort. -/
theorem C1_victor_attains_max (l l2 : List Msg) (v : Msg)
    (h : SortedByVotesDesc l l2) (hv : l2.head? = some v) :
    v ∈ l ∧ ∀ m ∈ l, m.total ≤ v.total :=
  head_total_max l l2 v h hv

/-- Claim C1, witness: the amended statement at the two-way tie, where the
unstable sort selected the second message. -/
theorem C1_witness :
    msgB ∈ [msgA, msgB] ∧ ∀ m ∈ [msgA, msgB], m.total ≤ msgB.total :=
  C1_victor_attains_max [msgA, msgB] [msgB, msgA] msgB (by decide) rfl

/-! ## Claim C7: outcome branching at Reset -/

/-- Claim C7 (confirmed): at Reset, an empty candidate list yields the
no-entries outcome; a non-empty list whose maximum total is zero yields
the no-votes outcome; otherwise the victory outcome names the selected
victor and bumps exactly that author's victory count by one. The record
reset itself leaves the victories map untouched, so the first two branches
perform no increment. -/
theorem C7_reset_outcome (l l2 : List Msg) (memes : Memes) (time : Int) (ni : Nat)
    (h : SortedByVotesDesc l l2) :
    (l = [] → process_outcome l2 memes time ni = (Outcome.no_entries, memes.reset time ni))
    ∧ (l ≠ [] → max_total l = 0 →
        process_outcome l2 memes time ni = (Outcome.no_votes, memes.reset time ni))
    ∧ (l ≠ [] → 0 < max_total l →
        ∃ v, v ∈ l ∧ v.total = max_total l
          ∧ process_outcome l2 memes time ni
              = (Outcome.victory v.author v.id, (memes.reset time ni).add_victory v.author)
          ∧ victory_count (process_outcome l2 memes time ni).2.times_won v.author
              = victory_count memes.times_won v.author + 1)
    ∧ (memes.reset time ni).times_won = memes.times_won := by
  obtain ⟨hp, hs⟩ := h
  refine ⟨?_, ?_, ?_, rfl⟩
  · intro hl
    subst hl
    have hl2 : l2 = [] := List.perm_nil.mp hp
    subst hl2
    rfl
  · intro hl hmax
    cases l2 with
    | nil => exact absurd (List.perm_nil.mp hp.symm) hl
    | cons v tl =>
      have hhead := head_total_max l (v :: tl) v ⟨hp, hs⟩ rfl
      have hv : v.total = max_total l :=
        le_antisymm (le_max_total l v hhead.1) (max_total_le l v.total hhead.2)
      have h0 : ¬ 0 < v.total := by omega
      simp [process_outcome, if_neg h0]
  · intro hl hmax
    cases l2 with
    | nil => exact absurd (List.perm_nil.mp hp.symm) hl
    | cons v tl =>
      have hhead := head_total_max l (v :: tl) v ⟨hp, hs⟩ rfl
      have hv : v.total = max_total l :=
        le_antisymm (le_max_total l v hhead.1) (max_total_le l v.total hhead.2)
      have h0 : 0 < v.total := by omega
      refine ⟨v, hhead.1, hv, ?_, ?_⟩
      · simp [process_outcome, if_pos h0]
      · simp only [process_outcome, if_pos h0, Memes.add_victory, Memes.reset]
        exact victory_count_bump _ _

/-- Claim C7, witness: the branch characterisation instantiated at a
single candidate with five reactions. -/
theorem C7_witness :
    (([msgA] : List Msg) = []
        → process_outcome [msgA] demoMemes 0 7 = (Outcome.no_entries, demoMemes.reset 0 7))
    ∧ (([msgA] : List Msg) ≠ [] → max_total [msgA] = 0 →
        process_outcome [msgA] demoMemes 0 7 = (Outcome.no_votes, demoMemes.reset 0 7))
    ∧ (([msgA] : List Msg) ≠ [] → 0 < max_total [msgA] →
        ∃ v, v ∈ [msgA] ∧ v.total = max_total [msgA]
          ∧ process_outcome [msgA] demoMemes 0 7
              = (Outcome.victory v.author v.id, (demoMemes.reset 0 7).add_victory v.author)
          ∧ victory_count (process_outcome [msgA] demoMemes 0 7).2.times_won v.author
              = victory_count demoMemes.times_won v.author + 1)
    ∧ (demoMemes.reset 0 7).times_won = demoMemes.times_won :=
  C7_reset_outcome [msgA] [msgA] demoMemes 0 7 (by decide)

/-! ## Claim C6: catch-up pagination is idempotent -/

/-- Filtering by a higher id bound after a witness drops out is a strict
length decrease; this drives termination of the pagination loop. -/
theorem filter_lt_strict (c : List Msg) (a b : Nat) (x : Msg)
    (hx : x ∈ c) (hax : a < x.id) (hbx : ¬ b < x.id) :
    (c.filter (fun m => b < m.id)).length < (c.filter (fun m => a < m.id)).length := by
  have hsub : List.Sublist (c.filter (fun m => b < m.id)) (c.filter (fun m => a < m.id)) :=
    List.monotone_filter_right c (fun m hm => by
      simp only [decide_eq_true_eq] at hm ⊢
      omega)
  rcases Nat.lt_or_ge (c.filter (fun m => b < m.id)).length
      (c.filter (fun m => a < m.id)).length with h | h
  · exact h
  · exfalso
    have heq := hsub.eq_of_length_le h
    have hmem : x ∈ c.filter (fun m => a < m.id) :=
      List.mem_filter.mpr ⟨hx, by simpa using hax⟩
    rw [← heq] at hmem
    have hcontra := (List.mem_filter.mp hmem).2
    simp only [decide_eq_true_eq] at hcontra
    omega

/-- One loop round on an empty page returns the accumulator unchanged. -/
theorem fetch_loop_stop (fuel : Nat) (c acc : List Msg) (last : Msg)
    (hlast : acc.getLast? = some last) (hb : page_after c last.id = []) :
    fetch_loop (fuel + 1) c acc = acc := by
  simp [fetch_loop, hlast, hb]

/-- One loop round on a non-empty page appends it and continues. -/
theorem fetch_loop_go (fuel : Nat) (c acc : List Msg) (last : Msg)
    (hlast : acc.getLast? = some last) (hb : page_after c last.id ≠ []) :
    fetch_loop (fuel + 1) c acc = fetch_loop fuel c (acc ++ page_after c last.id) := by
  simp [fetch_loop, hlast, hb]

/-- With fuel exceeding the number of channel messages past the current
last element, the loop ends with no message of the channel left beyond its
final element: the page after its last element is empty. -/
theorem fetch_loop_exhausts (c : List Msg) :
    ∀ (fuel : Nat) (acc : List Msg) (last : Msg),
      acc.getLast? = some last →
      (c.filter (fun m => last.id < m.id)).length < fuel →
      ∃ last2, (fetch_loop fuel c acc).getLast? = some last2 ∧
        c.filter (fun m => last2.id < m.id) = [] := by
  intro fuel
  induction fuel with
  | zero =>
    intro acc last hlast hlen
    omega
  | succ n ih =>
    intro acc last hlast hlen
    by_cases hb : page_after c last.id = []
    · refine ⟨last, ?_, ?_⟩
      · rw [fetch_loop_stop n c acc last hlast hb]
        exact hlast
      · have ht : (c.filter (fun m => last.id < m.id)).take 100 = [] := hb
        rcases List.take_eq_nil_iff.mp ht with h100 | hnil
        · omega
        · exact hnil
    · have hlast2 : (acc ++ page_after c last.id).getLast?
          = some ((page_after c last.id).getLast hb) := by
        rw [List.getLast?_append_of_ne_nil _ hb]
        exact List.getLast?_eq_getLast _ hb
      have hmem : (page_after c last.id).getLast hb ∈ page_after c last.id :=
        List.getLast_mem hb
      have hmemf : (page_after c last.id).getLast hb
          ∈ c.filter (fun m => last.id < m.id) := by
        unfold page_after at hmem
        exact List.take_subset _ _ hmem
      have hlt : last.id < ((page_after c last.id).getLast hb).id := by
        have h2 := (List.mem_filter.mp hmemf).2
        simpa using h2
      have hxc : (page_after c last.id).getLast hb ∈ c := (List.mem_filter.mp hmemf).1
      have hdec := filter_lt_strict c last.id ((page_after c last.id).getLast hb).id
        ((page_after c last.id).getLast hb) hxc hlt (by omega)
      rw [fetch_loop_go n c acc last hlast hb]
      exact ih (acc ++ page_after c last.id) ((page_after c last.id).getLast hb)
        hlast2 (by omega)

/-- Claim C6 (confirmed): the catch-up retrieval is idempotent. The first
run exhausts the channel, so feeding its output back through the
pagination loop (an unchanged channel, no intervening messages) appends
zero messages, and get_messages is a pure function of the channel and
anchor, so a second call returns the same list, bot-authored messages
excluded. -/
theorem C6_catch_up_idempotent (c : List Msg) (anchor : Msg) :
    fetch_loop (c.length + 1) c (fetch_loop (c.length + 1) c [anchor])
      = fetch_loop (c.length + 1) c [anchor]
    ∧ get_messages c anchor
      = (fetch_loop (c.length + 1) c [anchor]).filter (fun m => !m.is_own) := by
  obtain ⟨last2, hl2, hemp⟩ := fetch_loop_exhausts c (c.length + 1) [anchor] anchor rfl
    (by have := List.length_filter_le (fun m => decide (anchor.id < m.id)) c; omega)
  constructor
  · have hb : page_after c last2.id = [] := by
      simp [page_after, hemp]
    exact fetch_loop_stop c.length c _ last2 hl2 hb
  · rfl

/-! ## Claim C3: the AwaitingReset step -/

/-- Claim C3, counterexample. The claim states that a positive
time_until_reset leads to a sleep followed by a restart from AwaitingPing,
with Resetting entered only when the remainder is non-positive. In the
code the iteration always falls through to process_memes after the sleep:
with the sample record (reset due 604800 seconds after the epoch) observed
at the epoch, the remainder is positive and yet the iteration trace
contains the Resetting action. -/
theorem C3_counterexample :
    ¬ (∀ (mem0 mem1 : Option Memes) (now1 now2 : Int) (nm : Bool) (memes : Memes),
        mem0 = some memes →
        0 < memes.next_reset - now2 →
        IterAction.run_reset ∉ memes_process_iter mem0 mem1 now1 now2 nm) := by
  intro hclaim
  exact hclaim (some demoMemes) (some demoMemes) 0 0 false demoMemes rfl (by decide)
    (by decide)

/-- Claim C3 (amended): whenever the record is configured, every iteration
of the workflow ends by entering Resetting; when the recomputed
time_until_reset is positive the iteration sleeps exactly that duration
immediately before Resetting, rather than restarting evaluation from
AwaitingPing. -/
theorem C3_sleep_then_reset (mem0 mem1 : Option Memes) (now1 now2 : Int)
    (nm : Bool) (memes : Memes) (h : mem0 = some memes) :
    ∃ pre, memes_process_iter mem0 mem1 now1 now2 nm
      = pre ++ (if 0 < memes.next_reset - now2
          then [IterAction.sleep_reset (memes.next_reset - now2), IterAction.run_reset]
          else [IterAction.run_reset]) := by
  subst h
  refine ⟨(if 0 < (memes.next_reset - 2 * 86400) - now1 then
      IterAction.sleep_ping ((memes.next_reset - 2 * 86400) - now1) ::
        (match mem1 with
         | some _ => if nm then [IterAction.ping_reminder] else []
         | none => [])
    else []), ?_⟩
  unfold memes_process_iter
  by_cases hc : 0 < memes.next_reset - now2
  · simp [hc, List.append_assoc]
  · simp [hc, List.append_assoc]

/-- Claim C3, witness: the amended statement at the sample record observed
at the epoch, where the reset sleep is positive. -/
theorem C3_witness :
    ∃ pre, memes_process_iter (some demoMemes) (some demoMemes) 0 0 false
      = pre ++ (if 0 < demoMemes.next_reset - 0
          then [IterAction.sleep_reset (demoMemes.next_reset - 0), IterAction.run_reset]
          else [IterAction.run_reset]) :=
  C3_sleep_then_reset (some demoMemes) (some demoMemes) 0 0 false demoMemes rfl

/-! ## Claim C8: the self-reaction flag -/

/-- Any single intake event either leaves the record unchanged with no
reaction, or (only when the live flag is unset) sets the flag with exactly
one successful reaction. -/
theorem message_intake_cases (m : Memes) (e : IntakeEvent) :
    message_intake m e = (m, false)
    ∨ (m.reacted = false ∧ message_intake m e = (m.mark_reacted, true)) := by
  cases h1 : e.ephemeral with
  | true => exact Or.inl (by simp [message_intake, h1])
  | false =>
    cases h2 : (e.channel == m.channel && !e.is_own) with
    | false => exact Or.inl (by simp [message_intake, h1, h2])
    | true =>
      cases h3 : (!m.reacted && e.draw && e.react_ok) with
      | false => exact Or.inl (by simp [message_intake, h1, h2, h3])
      | true =>
        have hm : m.reacted = false := by
          cases hr : m.reacted
          · rfl
          · rw [hr] at h3
            simp at h3
        exact Or.inr ⟨hm, by simp [message_intake, h1, h2, h3]⟩

/-- Once the live flag is set, no further intake event reacts or changes
the record. -/
theorem run_intake_reacted (events : List IntakeEvent) :
    ∀ m : Memes, m.reacted = true → run_intake m events = (m, 0) := by
  induction events with
  | nil =>
    intro m _
    rfl
  | cons e es ih =>
    intro m h
    rcases message_intake_cases m e with hc | ⟨hf, _⟩
    · simp [run_intake, hc, ih m h]
    · rw [hf] at h
      exact absurd h (by simp)

/-- From an unreacted record, a run of intake events performs at most one
successful reaction, and the live flag is set exactly when one occurred. -/
theorem run_intake_count (events : List IntakeEvent) :
    ∀ m : Memes, m.reacted = false →
      (run_intake m events).2 ≤ 1
      ∧ ((run_intake m events).1.reacted = true ↔ (run_intake m events).2 = 1) := by
  induction events with
  | nil =>
    intro m h
    refine ⟨by simp [run_intake], ?_⟩
    simp [run_intake, h]
  | cons e es ih =>
    intro m h
    rcases message_intake_cases m e with hc | ⟨hf, hc⟩
    · have hih := ih m h
      constructor
      · simp [run_intake, hc]
        omega
      · simp [run_intake, hc]
        exact hih.2
    · have hrest := run_intake_reacted es m.mark_reacted rfl
      constructor
      · simp [run_intake, hc, hrest]
      · rw [run_intake]
        simp only [hc, hrest]
        simp [Memes.mark_reacted]

/-- The forced pick either does nothing, or (only when the snapshot was
unset) sets the live flag with exactly one successful reaction. -/
theorem forced_reaction_cases (m : Memes) (snap ne ok : Bool) :
    forced_reaction m snap ne ok = (m, false)
    ∨ (snap = false ∧ forced_reaction m snap ne ok = (m.mark_reacted, true)) := by
  cases hg : (!snap && ne && ok) with
  | false => exact Or.inl (by simp [forced_reaction, hg])
  | true =>
    have hs : snap = false := by
      cases hsn : snap
      · rfl
      · rw [hsn] at hg
        simp at hg
    exact Or.inr ⟨hs, by simp [forced_reaction, hg]⟩

/-- Claim C8, counterexample. The claim states that no second successful
bot self-reaction can occur in the same cycle. process_memes snapshots the
flag before dropping the write lock and guards the forced pick with that
stale snapshot: an intake event landing in the unlocked window reacts on
the live flag, after which the forced pick still fires on the stale
snapshot, giving two successful self-reactions in one cycle. -/
theorem C8_counterexample :
    ¬ (∀ (m : Memes) (pre window tail : List IntakeEvent) (ne ok : Bool)
        (time : Int) (ni : Nat),
        m.reacted = false →
        (process_cycle m pre window tail ne ok time ni).2 ≤ 1) := by
  intro hclaim
  have h := hclaim demoMemes [] [demoIntake] [] true true 0 7 rfl
  exact absurd h (by decide)

/-- Claim C8 (amended): within one contest cycle starting from an
unreacted record, at most two successful bot self-reactions occur; two
happen only when an intake reaction lands in the window between the flag
snapshot and the stale-guarded forced pick and that forced pick also
succeeds; when no intake reaction lands in that window, at most one
reaction occurs; and the record reset at the end of the cycle leaves the
flag false again. -/
theorem C8_cycle_reactions (m : Memes) (pre window tail : List IntakeEvent)
    (ne ok : Bool) (time : Int) (ni : Nat) (h : m.reacted = false) :
    (process_cycle m pre window tail ne ok time ni).2 ≤ 2
    ∧ ((process_cycle m pre window tail ne ok time ni).2 = 2 →
        (run_intake (run_intake m pre).1 window).2 = 1
        ∧ (forced_reaction (run_intake (run_intake m pre).1 window).1
            (run_intake m pre).1.reacted ne ok).2 = true)
    ∧ ((run_intake (run_intake m pre).1 window).2 = 0 →
        (process_cycle m pre window tail ne ok time ni).2 ≤ 1)
    ∧ (process_cycle m pre window tail ne ok time ni).1.reacted = false := by
  obtain ⟨h1le, h1iff⟩ := run_intake_count pre m h
  cases hf1 : (run_intake m pre).1.reacted with
  | true =>
    have hc1 : (run_intake m pre).2 = 1 := h1iff.mp hf1
    have hr2 : run_intake (run_intake m pre).1 window = ((run_intake m pre).1, 0) :=
      run_intake_reacted window _ hf1
    have hfc : forced_reaction (run_intake m pre).1 (run_intake m pre).1.reacted ne ok
        = ((run_intake m pre).1, false) := by
      rcases forced_reaction_cases (run_intake m pre).1 (run_intake m pre).1.reacted ne ok
          with hfc | ⟨hsnap, _⟩
      · exact hfc
      · rw [hf1] at hsnap
        exact absurd hsnap (by simp)
    have hr4 : run_intake (run_intake m pre).1 tail = ((run_intake m pre).1, 0) :=
      run_intake_reacted tail _ hf1
    simp only [process_cycle, hr2]
    simp only [hfc]
    simp only [hr4]
    refine ⟨by simp; omega, ?_, fun _ => by simp; omega, rfl⟩
    intro h22
    simp at h22
    omega
  | false =>
    have hc1 : (run_intake m pre).2 = 0 := by
      by_cases hc : (run_intake m pre).2 = 1
      · have := h1iff.mpr hc
        rw [hf1] at this
        exact absurd this (by simp)
      · omega
    obtain ⟨h2le, h2iff⟩ := run_intake_count window _ hf1
    rcases forced_reaction_cases (run_intake (run_intake m pre).1 window).1
        false ne ok with hfc | ⟨hsnap, hfc⟩
    · cases hf2 : (run_intake (run_intake m pre).1 window).1.reacted with
      | true =>
        have hc2 : (run_intake (run_intake m pre).1 window).2 = 1 := h2iff.mp hf2
        have hr4 : run_intake (run_intake (run_intake m pre).1 window).1 tail
            = ((run_intake (run_intake m pre).1 window).1, 0) :=
          run_intake_reacted tail _ hf2
        simp only [process_cycle, hf1, hfc]
        simp only [hr4]
        refine ⟨by simp; omega, ?_, fun hz => by simp; omega, rfl⟩
        intro h22
        simp at h22
        omega
      | false =>
        have hc2 : (run_intake (run_intake m pre).1 window).2 = 0 := by
          by_cases hc : (run_intake (run_intake m pre).1 window).2 = 1
          · have := h2iff.mpr hc
            rw [hf2] at this
            exact absurd this (by simp)
          · omega
        obtain ⟨h4le, _⟩ :=
          run_intake_count tail (run_intake (run_intake m pre).1 window).1 hf2
        simp only [process_cycle, hf1, hfc]
        refine ⟨by simp; omega, ?_, fun hz => by simp; omega, rfl⟩
        intro h22
        simp at h22
        omega
    · have hr4 : run_intake (run_intake (run_intake m pre).1 window).1.mark_reacted tail
          = ((run_intake (run_intake m pre).1 window).1.mark_reacted, 0) :=
        run_intake_reacted tail _ rfl
      simp only [process_cycle, hf1, hfc]
      simp only [hr4]
      refine ⟨by simp; omega, fun h22 => ⟨by simp at h22; omega, trivial⟩,
        fun hz => by simp; omega, rfl⟩

/-- Claim C8, witness: a cycle whose only successful reaction is a single
intake reaction arriving before the flag snapshot; the forced pick is then
correctly suppressed and the total stays at one. -/
theorem C8_witness :
    (process_cycle demoMemes [demoIntake] [] [] true true 0 7).2 ≤ 2
    ∧ ((process_cycle demoMemes [demoIntake] [] [] true true 0 7).2 = 2 →
        (run_intake (run_intake demoMemes [demoIntake]).1 []).2 = 1
        ∧ (forced_reaction (run_intake (run_intake demoMemes [demoIntake]).1 []).1
            (run_intake demoMemes [demoIntake]).1.reacted true true).2 = true)
    ∧ ((run_intake (run_intake demoMemes [demoIntake]).1 []).2 = 0 →
        (process_cycle demoMemes [demoIntake] [] [] true true 0 7).2 ≤ 1)
    ∧ (process_cycle demoMemes [demoIntake] [] [] true true 0 7).1.reacted = false :=
  C8_cycle_reactions demoMemes [demoIntake] [] [] true true 0 7 rfl

/-! ## Claim C2: the guild workflow supervisor -/

/-- Setting the started flag makes the guild read as started. -/
theorem lookup_set_started_self (gs : List (Nat × Bool)) (g : Nat) :
    lookup_started (set_started gs g) g = true := by
  induction gs with
  | nil => simp [set_started, lookup_started, List.lookup]
  | cons p rest ih =>
    obtain ⟨k, b⟩ := p
    by_cases hk : k = g
    · subst hk
      simp [set_started, lookup_started, List.lookup]
    · have hbeq : (g == k) = false := by
        simp
        omega
      simp only [set_started, if_neg hk]
      simp only [lookup_started, List.lookup, hbeq] at ih ⊢
      exact ih

/-- Setting one guild's started flag leaves other guilds unchanged. -/
theorem lookup_set_started_other (gs : List (Nat × Bool)) (g g2 : Nat) (h : g ≠ g2) :
    lookup_started (set_started gs g2) g = lookup_started gs g := by
  induction gs with
  | nil =>
    have hbeq : (g == g2) = false := by
      simp
      omega
    simp [set_started, lookup_started, List.lookup, hbeq]
  | cons p rest ih =>
    obtain ⟨k, b⟩ := p
    by_cases hk : k = g2
    · subst hk
      have hbeq : (g == k) = false := by
        simp
        omega
      simp [set_started, lookup_started, List.lookup, hbeq]
    · simp only [set_started, if_neg hk]
      by_cases hk2 : k = g
      · subst hk2
        simp [lookup_started, List.lookup]
      · have hbeq : (g == k) = false := by
          simp
          omega
        simp only [lookup_started, List.lookup, hbeq] at ih ⊢
        exact ih

/-- Spawning one task per enabled kind contributes exactly one task for
each enabled kind of that guild. -/
theorem count_spawn_map_self (g : Nat) (k : WorkflowKind) (enabled : List WorkflowKind)
    (hnd : enabled.Nodup) :
    (enabled.map (fun k2 => (g, k2))).count (g, k) = if k ∈ enabled then 1 else 0 := by
  induction enabled with
  | nil => simp
  | cons a as ih =>
    obtain ⟨ha, hnd2⟩ := List.nodup_cons.mp hnd
    simp only [List.map_cons, List.count_cons, ih hnd2]
    by_cases hak : a = k
    · subst hak
      simp [ha]
    · simp [hak, Ne.symm hak, List.mem_cons]

/-- A spawn burst for one guild contributes nothing to other guilds. -/
theorem count_spawn_map_other (g g2 : Nat) (k : WorkflowKind) (enabled : List WorkflowKind)
    (h : g ≠ g2) :
    (enabled.map (fun k2 => (g2, k2))).count (g, k) = 0 := by
  rw [List.count_eq_zero]
  intro hmem
  obtain ⟨k2, _, hk2⟩ := List.mem_map.mp hmem
  exact h (by injection hk2.symm)

/-- Within a restart-free event sequence, the spawn count of a pair grows
by exactly one when the kind is enabled, the guild is observed, and the
guild was not already started. -/
theorem sup_run_spawn_count (enabled : List WorkflowKind) (hnd : enabled.Nodup)
    (evs : List SupEvent) :
    SupEvent.restart ∉ evs → ∀ (s : ProcState) (g : Nat) (k : WorkflowKind),
      spawn_count (sup_run enabled s evs) g k
        = spawn_count s g k
          + (if k ∈ enabled ∧ SupEvent.observe g ∈ evs
                ∧ lookup_started s.guilds g = false then 1 else 0) := by
  induction evs with
  | nil =>
    intro _ s g k
    simp [sup_run]
  | cons e es ih =>
    intro hnr s g k
    have hnr2 : SupEvent.restart ∉ es := fun hm => hnr (List.mem_cons_of_mem _ hm)
    cases e with
    | restart => exact absurd (List.mem_cons_self _ _) hnr
    | observe g2 =>
      show spawn_count (sup_run enabled (sup_step enabled s (SupEvent.observe g2)) es) g k = _
      rw [ih hnr2]
      unfold sup_step guild_create
      by_cases hst : lookup_started s.guilds g2
      · simp only [if_pos hst]
        by_cases hgg : g = g2
        · subst hgg
          simp [spawn_count, lookup_set_started_self, hst, List.mem_cons]
        · simp [spawn_count, lookup_set_started_other _ _ _ hgg, List.mem_cons, hgg]
      · simp only [if_neg hst]
        by_cases hgg : g = g2
        · subst hgg
          simp only [spawn_count, List.count_append, lookup_set_started_self]
          rw [count_spawn_map_self g k enabled hnd]
          have hlf : lookup_started s.guilds g = false := by
            cases h2 : lookup_started s.guilds g
            · rfl
            · exact absurd h2 hst
          simp [hlf, List.mem_cons]
        · simp only [spawn_count, List.count_append,
            lookup_set_started_other _ _ _ hgg]
          rw [count_spawn_map_other g g2 k enabled hgg]
          simp [List.mem_cons, hgg]

/-- Claim C2, counterexample. The claim says no (guild, workflow-kind)
pair is ever spawned twice across any process runs because the started
flag is persisted. The flag is serde(skip) and guild_create never saves,
so a restart clears it: observing guild 1, restarting, and observing
guild 1 again spawns the memes workflow twice. -/
theorem C2_counterexample :
    ¬ (∀ (enabled : List WorkflowKind) (evs : List SupEvent) (g : Nat) (k : WorkflowKind),
        enabled.Nodup →
        spawn_count (sup_run enabled ProcState.init evs) g k ≤ 1) := by
  intro hclaim
  have h := hclaim [WorkflowKind.memes]
    [SupEvent.observe 1, SupEvent.restart, SupEvent.observe 1] 1 WorkflowKind.memes
    (by decide)
  exact absurd h (by decide)

/-- Claim C2 (amended): the already-started flag is in-memory only, so
within a single process run (no restart) the first observation of a guild
spawns exactly one task per enabled workflow kind and every subsequent
observation spawns nothing; after a process restart the flag is cleared
and tasks are spawned again. -/
theorem C2_spawn_once_per_run (enabled : List WorkflowKind) (evs : List SupEvent)
    (g : Nat) (k : WorkflowKind)
    (hnd : enabled.Nodup) (hnr : SupEvent.restart ∉ evs) :
    spawn_count (sup_run enabled ProcState.init evs) g k
      = if k ∈ enabled ∧ SupEvent.observe g ∈ evs then 1 else 0 := by
  rw [sup_run_spawn_count enabled hnd evs hnr ProcState.init g k]
  simp [spawn_count, ProcState.init, lookup_started, List.lookup]

/-- Claim C2, witness: one enabled kind, the same guild observed twice in
one run, spawned exactly once. -/
theorem C2_witness :
    spawn_count (sup_run [WorkflowKind.memes] ProcState.init
        [SupEvent.observe 1, SupEvent.observe 1]) 1 WorkflowKind.memes
      = if WorkflowKind.memes ∈ [WorkflowKind.memes]
            ∧ SupEvent.observe 1 ∈ [SupEvent.observe 1, SupEvent.observe 1]
        then 1 else 0 :=
  C2_spawn_once_per_run [WorkflowKind.memes] [SupEvent.observe 1, SupEvent.observe 1]
    1 WorkflowKind.memes (by decide) (by decide)

/-! ## Claim C4: nickname-lottery announcement routing -/

/-- Claim C4, counterexample. The claim says that with no announcement
channel configured, a failed nickname edit is escalated to the
NotificationSink. The code (and the channel field doc comment) makes this
case silent: a failed edit with channel unset produces neither an
announcement nor an escalation. -/
theorem C4_counterexample :
    ¬ (∀ (edit_failed fools : Bool) (channel : Option Nat) (resolve : Nat → Option Nat),
        edit_failed = true ∨ fools = true →
        (channel = none →
          announce_outcome edit_failed fools channel resolve = AnnounceAction.escalate)) := by
  intro hclaim
  have h := hclaim true false none (fun _ => none) (Or.inl rfl) rfl
  exact absurd h (by decide)

/-- Claim C4 (amended): when the edit fails, or today is the override date
even on success, the outcome is routed by the configured channel: a set
and resolvable channel receives the announcement; a set but unresolvable
channel escalates to the NotificationSink; an unset channel stays silent
(no announcement, no escalation). -/
theorem C4_announce_routing (edit_failed fools : Bool) (channel : Option Nat)
    (resolve : Nat → Option Nat) (h : edit_failed = true ∨ fools = true) :
    announce_outcome edit_failed fools channel resolve
      = match channel with
        | none => AnnounceAction.silent
        | some cid =>
          match resolve cid with
          | some ch => AnnounceAction.announce ch
          | none => AnnounceAction.escalate := by
  have hp : (fools || edit_failed) = true := by
    rcases h with h | h <;> simp [h]
  cases channel with
  | none => simp [announce_outcome, hp]
  | some cid =>
    cases hr : resolve cid with
    | none => simp [announce_outcome, hp, hr]
    | some ch => simp [announce_outcome, hp, hr]

/-- Claim C4, witness: a failed edit with a configured, resolvable
channel. -/
theorem C4_witness :
    announce_outcome true false (some 3) (fun c => some c)
      = match (some 3 : Option Nat) with
        | none => AnnounceAction.silent
        | some cid =>
          match (fun c => some c : Nat → Option Nat) cid with
          | some ch => AnnounceAction.announce ch
          | none => AnnounceAction.escalate :=
  C4_announce_routing true false (some 3) (fun c => some c) (Or.inl rfl)

/-! ## Claim C9: re-pointing the memes channel resets the record -/

/-- Claim C9 (confirmed): set_memes_channel with a channel always installs
a fresh record regardless of the prior guild state: the victories map is
empty, the self-reaction flag is false, and the cycle start is the
current time, so lifetime win counts are erased. -/
theorem C9_set_memes_channel_fresh (g : Guild) (c im : Nat) (now : Int) :
    (g.set_memes_channel (some (c, im)) now).memes
      = some { channel := c, last_reset := now, initial_message := im,
               times_won := [], reacted := false } := rfl

/-! ## Claim C10: the nickname store never maps a user to an empty list -/

/-- add_user_nickname preserves the no-empty-lists invariant. -/
theorem add_preserves_no_empty (s : NickStore) (u : Nat) (n : String)
    (h : no_empty_lists s) : no_empty_lists (add_user_nickname s u n) := by
  induction s with
  | nil =>
    intro p hp
    simp [add_user_nickname] at hp
    subst hp
    simp
  | cons q rest ih =>
    obtain ⟨k, l⟩ := q
    intro p hp
    by_cases hk : k = u
    · subst hk
      simp only [add_user_nickname, if_pos rfl] at hp
      rcases List.mem_cons.mp hp with rfl | hp2
      · simp
      · exact h p (List.mem_cons_of_mem _ hp2)
    · simp only [add_user_nickname, if_neg hk] at hp
      rcases List.mem_cons.mp hp with rfl | hp2
      · exact h (k, l) (List.mem_cons_self _ _)
      · exact ih (fun q hq => h q (List.mem_cons_of_mem _ hq)) p hp2

/-- remove_nickname_entry preserves the no-empty-lists invariant: an entry
emptied by the removal is deleted from the map. -/
theorem remove_entry_preserves (u : Nat) (n : Nat) :
    ∀ (s s2 : NickStore), no_empty_lists s →
      remove_nickname_entry s u n = some s2 → no_empty_lists s2 := by
  intro s
  induction s with
  | nil =>
    intro s2 _ hr
    simp only [remove_nickname_entry] at hr
    injection hr with hr
    subst hr
    intro p hp
    simp at hp
  | cons q rest ih =>
    obtain ⟨k, l⟩ := q
    intro s2 h hr
    have hrest : no_empty_lists rest := fun q hq => h q (List.mem_cons_of_mem _ hq)
    by_cases hk : k = u
    · subst hk
      simp only [remove_nickname_entry, if_pos rfl] at hr
      by_cases hn : n ≤ l.length
      · rw [if_pos hn] at hr
        injection hr with hr
        subst hr
        by_cases he : (l.eraseIdx (n - 1)).isEmpty
        · rw [if_pos he]
          exact hrest
        · rw [if_neg he]
          intro p hp
          rcases List.mem_cons.mp hp with rfl | hp2
          · simpa [List.isEmpty_iff] using he
          · exact hrest p hp2
      · rw [if_neg hn] at hr
        exact absurd hr (by simp)
    · simp only [remove_nickname_entry, if_neg hk] at hr
      cases hrec : remove_nickname_entry rest u n with
      | none =>
        rw [hrec] at hr
        simp at hr
      | some rest2 =>
        rw [hrec] at hr
        simp only [Option.map_some'] at hr
        injection hr with hr
        subst hr
        intro p hp
        rcases List.mem_cons.mp hp with rfl | hp2
        · exact h (k, l) (List.mem_cons_self _ _)
        · exact ih rest2 hrest hrec p hp2

/-- Any successful sequence of add and remove operations preserves the
no-empty-lists invariant. -/
theorem apply_ops_no_empty (ops : List NickOp) :
    ∀ s s2 : NickStore, no_empty_lists s →
      apply_nick_ops s ops = some s2 → no_empty_lists s2 := by
  induction ops with
  | nil =>
    intro s s2 h heq
    simp only [apply_nick_ops] at heq
    injection heq with heq
    subst heq
    exact h
  | cons op rest ih =>
    intro s s2 h heq
    simp only [apply_nick_ops] at heq
    cases hop : apply_nick_op s op with
    | none =>
      rw [hop] at heq
      simp at heq
    | some s1 =>
      rw [hop] at heq
      simp only [Option.some_bind] at heq
      have h1 : no_empty_lists s1 := by
        cases op with
        | add u nn =>
          simp only [apply_nick_op] at hop
          injection hop with hop
          subst hop
          exact add_preserves_no_empty s u nn h
        | remove u i =>
          simp only [apply_nick_op, remove_user_nickname] at hop
          by_cases hi : i = 0
          · rw [if_pos hi] at hop
            exact absurd hop (by simp)
          · rw [if_neg hi] at hop
            exact remove_entry_preserves u i s s1 h hop
      exact ih s1 s2 h1 heq

/-- Under the invariant, every successful lookup yields a non-empty
list. -/
theorem lookup_no_empty (s : NickStore) (h : no_empty_lists s) (u : Nat) :
    ∀ l, s.lookup u = some l → l ≠ [] := by
  induction s with
  | nil =>
    intro l hl
    simp [List.lookup] at hl
  | cons q rest ih =>
    obtain ⟨k, l0⟩ := q
    intro l hl
    cases hb : (u == k) with
    | true =>
      simp only [List.lookup, hb] at hl
      have heq : l0 = l := by injection hl
      rw [← heq]
      exact h (k, l0) (List.mem_cons_self _ _)
    | false =>
      simp only [List.lookup, hb] at hl
      exact ih (fun q hq => h q (List.mem_cons_of_mem _ hq)) l hl

/-- A key present in the store looks up successfully. -/
theorem lookup_isSome_of_mem (s : NickStore) (p : Nat × List String) (hp : p ∈ s) :
    (s.lookup p.1).isSome := by
  induction s with
  | nil => simp at hp
  | cons q rest ih =>
    obtain ⟨k, l0⟩ := q
    cases hb : (p.1 == k) with
    | true => simp [List.lookup, hb]
    | false =>
      simp only [List.lookup, hb]
      rcases List.mem_cons.mp hp with rfl | hp2
      · simp at hb
      · exact ih hp2

/-- Claim C10 (confirmed): in any store reachable from the empty store by
add_user_nickname and remove_user_nickname operations, no user maps to an
empty list; get_random_user returns a user exactly when some user has at
least one nickname, and any user it returns has a nickname available for
selection. -/
theorem C10_nickname_store (ops : List NickOp) (s : NickStore) (r : Nat)
    (h : apply_nick_ops [] ops = some s) :
    no_empty_lists s
    ∧ (∀ u, get_random_user s r = some u → ∃ l, s.lookup u = some l ∧ l ≠ [])
    ∧ ((get_random_user s r).isSome ↔ ∃ u l, s.lookup u = some l ∧ l ≠ []) := by
  have hinv : no_empty_lists s :=
    apply_ops_no_empty ops [] s (fun p hp => absurd hp (List.not_mem_nil p)) h
  refine ⟨hinv, ?_, ?_⟩
  · intro u hu
    simp only [get_random_user, Option.map_eq_some'] at hu
    obtain ⟨p, hp, hpu⟩ := hu
    have hmem : p ∈ s := List.get?_mem hp
    have hsome := lookup_isSome_of_mem s p hmem
    obtain ⟨l, hl⟩ := Option.isSome_iff_exists.mp hsome
    rw [hpu] at hl
    exact ⟨l, hl, lookup_no_empty s hinv u l hl⟩
  · constructor
    · intro hs
      cases s with
      | nil => simp [get_random_user] at hs
      | cons q rest =>
        refine ⟨q.1, ?_⟩
        have hsome := lookup_isSome_of_mem (q :: rest) q (List.mem_cons_self _ _)
        obtain ⟨l, hl⟩ := Option.isSome_iff_exists.mp hsome
        exact ⟨l, hl, lookup_no_empty _ hinv q.1 l hl⟩
    · rintro ⟨u, l, hl, -⟩
      cases s with
      | nil => simp [List.lookup] at hl
      | cons q rest =>
        simp only [get_random_user, Option.isSome_map']
        have hlt : r % (rest.length + 1) < (q :: rest).length :=
          Nat.mod_lt _ (by omega)
        simp [List.getElem?_eq_getElem hlt]

/-- Claim C10, witness: the store reached by a single add. -/
theorem C10_witness :
    no_empty_lists [(1, ["a"])]
    ∧ (∀ u, get_random_user [(1, ["a"])] 0 = some u
        → ∃ l, ([(1, ["a"])] : NickStore).lookup u = some l ∧ l ≠ [])
    ∧ ((get_random_user [(1, ["a"])] 0).isSome
        ↔ ∃ u l, ([(1, ["a"])] : NickStore).lookup u = some l ∧ l ≠ []) :=
  C10_nickname_store [NickOp.add 1 "a"] [(1, ["a"])] 0 rfl

end Loki
